import Mathlib

/-!
# Verification of the Multimodal Emotion Decision Engine

Shallow embedding of the emotion-fusion core of this repository:

* `BackEnd/services/emotion_fusion.py` — `EmotionFusionService`
  (compatibility matrix, `get_compatibility`, `merge_emotions`,
  `get_recommendation_emotion`);
* `Backend/voice_model/voice_api.py` — `assess_audio_quality` and the
  quality gate inside `predict_emotion`;
* `Backend/video_model/face_expression.py` — `detect_expression`;
* `Backend/server_api.py` — the decision core of `analyze_voice_and_face`.

Conventions of the embedding:

* Python `float` values are modelled as exact rationals (`ℚ`); every numeric
  literal of the source appears verbatim as a decimal `ℚ` literal.
* Python `dict`s keyed by emotion names are modelled as association lists
  (`List (String × ℚ)`) in insertion order: assignment to an existing key
  keeps its position, assignment to a fresh key appends.
* `str.lower`/`str.strip` are modelled character-wise (`pyLower`/`pyStrip`);
  these are structurally recursive so that concrete strings evaluate inside
  the kernel.
* External collaborators (the wav2vec2 voice model, librosa/numpy spectral
  features, HSEmotion, the learned fusion network, cv2 decoding) are not code
  of this repository; their outcomes enter the model as parameters or as
  small outcome datatypes, while every branch decision made by repository
  code is embedded faithfully.
-/

/-- Python `str.lower()` (character-wise, ASCII behaviour). -/

def pyLower (s : String) : String := ⟨s.data.map Char.toLower⟩

/-- Python `str.strip()`: drop leading and trailing whitespace. -/
def pyStrip (s : String) : String :=
  ⟨((s.data.dropWhile Char.isWhitespace).reverse.dropWhile Char.isWhitespace).reverse⟩

/-- `EmotionFusionService.normalize_emotion`: `emotion.lower().strip()`. -/
def normalizeEmotion (s : String) : String := pyStrip (pyLower s)

/-- The seven canonical emotion labels, the key set of `EMOTION_COMPATIBILITY`. -/
inductive Emotion : Type
  | angry
  | disgust
  | fear
  | happy
  | neutral
  | sad
  | surprise
deriving DecidableEq

/-- Membership test in the key set of `EMOTION_COMPATIBILITY` (every inner
dictionary of the matrix contains all seven keys, so one parser serves for
both the outer and the inner membership test of `get_compatibility`). -/
def parseEmotion (s : String) : Option Emotion :=
  if s = "angry" then some .angry
  else if s = "disgust" then some .disgust
  else if s = "fear" then some .fear
  else if s = "happy" then some .happy
  else if s = "neutral" then some .neutral
  else if s = "sad" then some .sad
  else if s = "surprise" then some .surprise
  else none

/-- `EmotionFusionService.EMOTION_COMPATIBILITY`, row by row. -/
def compat : Emotion → Emotion → ℚ
  | .angry, .angry => 1.0
  | .angry, .disgust => 0.6
  | .angry, .fear => 0.3
  | .angry, .happy => 0.0
  | .angry, .neutral => 0.2
  | .angry, .sad => 0.4
  | .angry, .surprise => 0.3
  | .disgust, .angry => 0.6
  | .disgust, .disgust => 1.0
  | .disgust, .fear => 0.4
  | .disgust, .happy => 0.0
  | .disgust, .neutral => 0.2
  | .disgust, .sad => 0.3
  | .disgust, .surprise => 0.2
  | .fear, .angry => 0.3
  | .fear, .disgust => 0.4
  | .fear, .fear => 1.0
  | .fear, .happy => 0.0
  | .fear, .neutral => 0.2
  | .fear, .sad => 0.5
  | .fear, .surprise => 0.7
  | .happy, .angry => 0.0
  | .happy, .disgust => 0.0
  | .happy, .fear => 0.0
  | .happy, .happy => 1.0
  | .happy, .neutral => 0.4
  | .happy, .sad => 0.0
  | .happy, .surprise => 0.5
  | .neutral, .angry => 0.2
  | .neutral, .disgust => 0.2
  | .neutral, .fear => 0.2
  | .neutral, .happy => 0.4
  | .neutral, .neutral => 1.0
  | .neutral, .sad => 0.3
  | .neutral, .surprise => 0.3
  | .sad, .angry => 0.4
  | .sad, .disgust => 0.3
  | .sad, .fear => 0.5
  | .sad, .happy => 0.0
  | .sad, .neutral => 0.3
  | .sad, .sad => 1.0
  | .sad, .surprise => 0.2
  | .surprise, .angry => 0.3
  | .surprise, .disgust => 0.2
  | .surprise, .fear => 0.7
  | .surprise, .happy => 0.5
  | .surprise, .neutral => 0.3
  | .surprise, .sad => 0.2
  | .surprise, .surprise => 1.0

/-- Matrix lookup on already-normalized labels:
`if e1 in EMOTION_COMPATIBILITY and e2 in EMOTION_COMPATIBILITY[e1]` then the
table value, else `0.0`. -/
def compatLookup (e1 e2 : String) : ℚ :=
  match parseEmotion e1, parseEmotion e2 with
  | some x, some y => compat x y
  | _, _ => 0.0

/-- `EmotionFusionService.get_compatibility`: normalize both labels, then
look the pair up in the matrix, defaulting to `0.0`. -/
def get_compatibility (emotion1 emotion2 : String) : ℚ :=
  compatLookup (normalizeEmotion emotion1) (normalizeEmotion emotion2)

/-- The canonical label strings, in the order of the matrix rows. -/
def canonicalEmotions : List String :=
  ["angry", "disgust", "fear", "happy", "neutral", "sad", "surprise"]

/-- `EmotionFusionService.DEFAULT_VOICE_WEIGHT`. -/
def DEFAULT_VOICE_WEIGHT : ℚ := 0.6

/-- `EmotionFusionService.DEFAULT_FACE_WEIGHT`. -/
def DEFAULT_FACE_WEIGHT : ℚ := 0.4

/-- `EmotionFusionService.__init__`: `voice_weight or DEFAULT` (Python `or`
treats `None` and `0` as falsy), then both weights are divided by their sum.
Returns the pair `(self.voice_weight, self.face_weight)`. -/
def initWeights (voice_weight face_weight : Option ℚ) : ℚ × ℚ :=
  let vw := match voice_weight with
    | none => DEFAULT_VOICE_WEIGHT
    | some v => if v = 0 then DEFAULT_VOICE_WEIGHT else v
  let fw := match face_weight with
    | none => DEFAULT_FACE_WEIGHT
    | some v => if v = 0 then DEFAULT_FACE_WEIGHT else v
  let total := vw + fw
  (vw / total, fw / total)

/-- `self.voice_weight` of the module-level singleton `emotion_fusion`
(constructed with default arguments). -/
def fusionVoiceWeight : ℚ := (initWeights none none).1

/-- `self.face_weight` of the module-level singleton `emotion_fusion`. -/
def fusionFaceWeight : ℚ := (initWeights none none).2

/-- Python dict assignment `d[k] = v` on an insertion-ordered association
list: replace the value in place if the key exists, else append. -/
def upsertAssign (l : List (String × ℚ)) (k : String) (v : ℚ) : List (String × ℚ) :=
  if l.any (fun p => p.1 = k) then l.map (fun p => if p.1 = k then (p.1, v) else p)
  else l ++ [(k, v)]

/-- Python `d[k] += v` / `d[k] = v` pattern of `merge_emotions`: add to the
value in place if the key exists, else append. -/
def upsertAdd (l : List (String × ℚ)) (k : String) (v : ℚ) : List (String × ℚ) :=
  if l.any (fun p => p.1 = k) then l.map (fun p => if p.1 = k then (p.1, p.2 + v) else p)
  else l ++ [(k, v)]

/-- Python `max(items, key=lambda x: x[1])`: the first pair with maximal
value wins; `none` models the `ValueError` on an empty sequence. -/
def firstMaxBy (l : List (String × ℚ)) : Option (String × ℚ) :=
  match l with
  | [] => none
  | x :: xs => some (xs.foldl (fun best y => if best.2 < y.2 then y else best) x)

/-- Stable insertion into a list sorted by descending value (ties keep the
earlier element first, as Python's stable `sorted`). -/
def insertDesc (x : String × ℚ) : List (String × ℚ) → List (String × ℚ)
  | [] => [x]
  | y :: ys => if y.2 < x.2 then x :: y :: ys else y :: insertDesc x ys

/-- `sorted(d.items(), key=lambda x: x[1], reverse=True)`. -/
def sortDesc (l : List (String × ℚ)) : List (String × ℚ) :=
  l.foldl (fun acc x => insertDesc x acc) []

/-- One modality prediction: label, confidence, full distribution. -/
structure ModalityPrediction where
  emotion : String
  confidence : ℚ
  all_emotions : List (String × ℚ)
deriving DecidableEq

/-- The dictionary returned by `EmotionFusionService.merge_emotions`. -/
structure MergedResult where
  final_emotion : String
  final_confidence : ℚ
  agreement : String
  agreement_score : ℚ
  explanation : String
  voice_prediction : ModalityPrediction
  face_prediction : ModalityPrediction
  merged_probabilities : List (String × ℚ)
  emotions_match : Bool
  compatibility : ℚ
deriving DecidableEq

/-- The weighted merge of `merge_emotions`: voice probabilities are written
with plain assignment (`merged[e] = p * voice_weight`), face probabilities
are accumulated (`merged[e] += p * face_weight`); a falsy face distribution
(absent or empty) degenerates to a point mass
`merged[face_emotion] += face_confidence * face_weight`.
`face_emotion` is the already-normalized face label. -/
def mergedDistribution (voice_weight face_weight : ℚ)
    (voice_all_emotions : List (String × ℚ)) (face_emotion : String)
    (face_confidence : ℚ) (face_all_emotions : Option (List (String × ℚ))) :
    List (String × ℚ) :=
  let merged0 := voice_all_emotions.foldl
    (fun acc p => upsertAssign acc (normalizeEmotion p.1) (p.2 * voice_weight)) []
  match face_all_emotions with
  | some fl =>
      if fl.isEmpty then upsertAdd merged0 face_emotion (face_confidence * face_weight)
      else fl.foldl (fun acc p => upsertAdd acc (normalizeEmotion p.1) (p.2 * face_weight)) merged0
  | none => upsertAdd merged0 face_emotion (face_confidence * face_weight)

/-- Assemble the result dictionary of `merge_emotions` once the final
(emotion, confidence) pair `fin` has been selected.  Quotation marks inside
the explanation templates are elided. -/
def buildMergedResult (ve fe : String) (voice_confidence face_confidence : ℚ)
    (voice_all_emotions : List (String × ℚ))
    (face_all_emotions : Option (List (String × ℚ)))
    (merged : List (String × ℚ)) (fin : String × ℚ) : MergedResult :=
  let emotions_match : Bool := ve == fe
  let compatibility := get_compatibility ve fe
  { final_emotion := fin.1
    final_confidence := fin.2
    agreement :=
      if emotions_match then "strong"
      else if compatibility ≥ 0.6 then "moderate"
      else if compatibility ≥ 0.3 then "weak"
      else "conflict"
    agreement_score := if emotions_match then 1.0 else compatibility
    explanation :=
      if emotions_match then
        "Both voice and face models strongly agree on " ++ fin.1
      else if compatibility ≥ 0.6 then
        "Voice detected " ++ ve ++ " and face detected " ++ fe ++ " - related emotions"
      else if compatibility ≥ 0.3 then
        "Voice detected " ++ ve ++ " and face detected " ++ fe ++ " - partially related"
      else
        "Voice detected " ++ ve ++ " but face detected " ++ fe ++ " - conflicting emotions"
    voice_prediction := ⟨ve, voice_confidence, voice_all_emotions⟩
    face_prediction := ⟨fe, face_confidence,
      match face_all_emotions with
      | some fl => if fl.isEmpty then [(fe, face_confidence)] else fl
      | none => [(fe, face_confidence)]⟩
    merged_probabilities := sortDesc merged
    emotions_match := emotions_match
    compatibility := compatibility }

/-- `EmotionFusionService.merge_emotions`.  `none` models the only way the
Python function could raise: `max` over an empty merged dictionary. -/
def mergeEmotions (voice_weight face_weight : ℚ)
    (voice_emotion : String) (voice_confidence : ℚ)
    (voice_all_emotions : List (String × ℚ))
    (face_emotion : String) (face_confidence : ℚ)
    (face_all_emotions : Option (List (String × ℚ))) : Option MergedResult :=
  let ve := normalizeEmotion voice_emotion
  let fe := normalizeEmotion face_emotion
  let merged := mergedDistribution voice_weight face_weight voice_all_emotions fe
    face_confidence face_all_emotions
  (firstMaxBy merged).map
    (buildMergedResult ve fe voice_confidence face_confidence voice_all_emotions
      face_all_emotions merged)

/-- `merge_emotions` as invoked through the singleton `emotion_fusion`. -/
def mergeEmotionsDefault (voice_emotion : String) (voice_confidence : ℚ)
    (voice_all_emotions : List (String × ℚ)) (face_emotion : String)
    (face_confidence : ℚ) (face_all_emotions : Option (List (String × ℚ))) :
    Option MergedResult :=
  mergeEmotions fusionVoiceWeight fusionFaceWeight voice_emotion voice_confidence
    voice_all_emotions face_emotion face_confidence face_all_emotions

/-- `EmotionFusionService.get_recommendation_emotion`. -/
def get_recommendation_emotion (merged_result : MergedResult) : String :=
  if merged_result.agreement = "conflict" ∧ merged_result.final_confidence < 0.4 then
    "neutral"
  else merged_result.final_emotion

/-- A concrete low-confidence conflicting merge result. -/
def conflictExample : MergedResult :=
  { final_emotion := "happy"
    final_confidence := 0.2
    agreement := "conflict"
    agreement_score := 0
    explanation := ""
    voice_prediction := ⟨"happy", 0.2, []⟩
    face_prediction := ⟨"sad", 0.2, []⟩
    merged_probabilities := []
    emotions_match := false
    compatibility := 0 }

/-- The shared distribution used to witness C4. -/
def identicalDist : List (String × ℚ) := [("fear", 0.7), ("sad", 0.2), ("neutral", 0.1)]

/-- `assess_audio_quality` report (voice_api.py).  The code stores
`rms = sqrt(mean(audio**2))` and only ever compares it against thresholds;
since the square root is monotone we carry the square `rmsSq` and compare it
against squared thresholds. -/
structure AudioQuality where
  rmsSq : ℚ
  peak : ℚ
  zcr : ℚ
  centroid : ℚ
  speech_ratio : ℚ
deriving DecidableEq

/-- `mean(audio_data ** 2)` — the square of the RMS. -/
def meanSq (audio : List ℚ) : ℚ := (audio.map (fun x => x ^ 2)).sum / audio.length

/-- `np.max(np.abs(audio_data))` (the buffer is non-empty whenever this is
reached, and absolute values are non-negative, so folding `max` from `0`
agrees with numpy). -/
def peakAbs (audio : List ℚ) : ℚ := (audio.map (fun x => |x|)).foldl max 0

/-- `assess_audio_quality`: RMS and peak are computed from the buffer by
repository code; the zero-crossing rate, spectral centroid and speech-band
ratio are produced by external librosa / numpy-FFT routines, so they enter
the model as parameters. -/
def assess_audio_quality (audio : List ℚ) (zcr centroid speech_ratio : ℚ) : AudioQuality :=
  { rmsSq := meanSq audio
    peak := peakAbs audio
    zcr := zcr
    centroid := centroid
    speech_ratio := speech_ratio }

/-- The canned fallback distribution of `predict_emotion`, parameterized by
the probability it assigns to "neutral" (0.25 for low-information audio,
0.2 for too-short audio; all remaining entries coincide). -/
def fallbackDistribution (neutralP : ℚ) : List (String × ℚ) :=
  [("neutral", neutralP), ("happy", 0.15), ("sad", 0.15), ("angry", 0.1),
    ("fear", 0.1), ("disgust", 0.1), ("surprise", 0.1)]

/-- Result of `predict_emotion`: either one of the two canned fallbacks
(label, confidence, distribution, quality report) or the external wav2vec2
inference path, which this model does not evaluate. -/
inductive VoicePredictionResult where
  | fallback (emotion : String) (confidence : ℚ) (all_emotions : List (String × ℚ))
      (quality : AudioQuality)
  | modelPrediction (quality : AudioQuality)
deriving DecidableEq

/-- The decision structure of `predict_emotion` (voice_api.py): a clip
shorter than `0.25 * sr` samples returns the confidence-0.2 fallback with an
all-zero quality report; otherwise the quality report is computed and the
guard rails `too_quiet`, `low_speech_band`, `no_variation` decide between
the confidence-0.25 fallback and real model inference. -/
def predict_emotion (audio : List ℚ) (sr : ℕ) (zcr centroid speech_ratio : ℚ) :
    VoicePredictionResult :=
  if (audio.length : ℚ) < (sr : ℚ) * 0.25 then
    .fallback "neutral" 0.2 (fallbackDistribution 0.2) ⟨0, 0, 0, 0, 0⟩
  else
    let quality := assess_audio_quality audio zcr centroid speech_ratio
    let too_quiet := quality.rmsSq < 0.05 ^ 2 ∨ quality.peak < 0.15
    let low_speech_band := quality.speech_ratio < 0.05
    let no_variation := quality.zcr < 0.01 ∨ quality.centroid < 80.0
    if too_quiet ∨ low_speech_band ∨ no_variation then
      .fallback "neutral" 0.25 (fallbackDistribution 0.25) quality
    else
      .modelPrediction quality

/-- The dictionary returned by `detect_expression` (face_expression.py). -/
structure FaceRes where
  success : Bool
  emotion : String
  confidence : ℚ
  all_emotions : List (String × ℚ)
  warning : Option String
deriving DecidableEq

/-- Possible situations inside `detect_expression`: the image is unreadable
(`cv2.imread` returned None), it is a near-uniform placeholder (grey std-dev
below 10), the external HSEmotion recognizer raised, or it produced a
prediction (whose mapped label, confidence and distribution are parameters —
the recognizer is an external collaborator). -/
inductive FaceOutcome where
  | unreadableImage
  | placeholderImage
  | recognizerError
  | recognized (emotion : String) (confidence : ℚ) (all_emotions : List (String × ℚ))
deriving DecidableEq

/-- The canned neutral face prediction used on every failure path. -/
def neutralFaceFallback (warning : String) : FaceRes :=
  { success := true
    emotion := "neutral"
    confidence := 0.3
    all_emotions := [("neutral", 0.3)]
    warning := some warning }

/-- `detect_expression`: every failure path returns the canned neutral
prediction with `success = True` and a warning; only a successful HSEmotion
inference returns a real prediction. -/
def detect_expression : FaceOutcome → FaceRes
  | .unreadableImage => neutralFaceFallback "Could not read image, using neutral fallback"
  | .placeholderImage => neutralFaceFallback "No camera available, using neutral fallback"
  | .recognizerError => neutralFaceFallback "Face detection failed, using neutral fallback"
  | .recognized e c all =>
      { success := true, emotion := e, confidence := c, all_emotions := all, warning := none }

/-- Whether the face predictor failed rather than produced a prediction. -/
def FaceOutcome.isFailure : FaceOutcome → Bool
  | .recognized _ _ _ => false
  | _ => true

/-- The audio side of an `/analyze-voice-and-face` request: whether the
uploaded extension is allowed, and the outcome of
`voice_api.analyze_audio_upload` (`some` iff it reported success). -/
structure AudioBranch where
  extOk : Bool
  prediction : Option ModalityPrediction

/-- The image side of the request: extension check plus the situation met by
`detect_expression`. -/
structure ImageBranch where
  extOk : Bool
  outcome : FaceOutcome

/-- What happens if the learned fusion predictor is invoked: `cv2.imdecode`
may fail (no frame, predictor never called), the predictor may report
failure or raise, or it succeeds with a prediction. -/
inductive FusionBehavior where
  | decodeFailed
  | predictFailed
  | predictSucceeded (emotion : String) (confidence : ℚ) (all_emotions : List (String × ℚ))
deriving DecidableEq

/-- An `/analyze-voice-and-face` request together with the behaviour of the
external predictors on it. -/
structure MMRequest where
  audio : Option AudioBranch
  image : Option ImageBranch
  fusionAvailable : Bool
  fusionBehavior : FusionBehavior

/-- The resolution paths of `analyze_voice_and_face`. -/
inductive Verdict where
  | failure (error : String)
  | voiceOnly (voice : ModalityPrediction)
  | faceOnly (face : FaceRes)
  | fusionVerdict (emotion : String) (confidence : ℚ) (all_emotions : List (String × ℚ))
  | ruleMerge (voice : ModalityPrediction) (face : FaceRes) (merged : Option MergedResult)
deriving DecidableEq

/-- The face branch of `analyze_voice_and_face`: run `detect_expression` and
replace an unsuccessful result by the canned neutral prediction (with
`detect_expression` as written this substitution is already performed
inside it, so the outer check never fires). -/
def faceBranch (image : Option ImageBranch) : Option FaceRes :=
  image.map fun ib =>
    let fr := detect_expression ib.outcome
    if fr.success then fr
    else neutralFaceFallback "Face detection failed, using neutral fallback"

/-- The decision core of `analyze_voice_and_face` (server_api.py): input
validation, the two optional modality branches, and the ordered resolution:
terminal failure, voice-only, face-only, then — with both modalities
available — the learned fusion model when it is loaded and succeeds,
otherwise the rule-based merge through the singleton fusion service. -/
def analyze_voice_and_face (req : MMRequest) : Verdict :=
  match req.audio, req.image with
  | none, none => .failure "Provide at least one of audio_file or image_file"
  | _, _ =>
    if (match req.audio with | some ab => !ab.extOk | none => false) then
      .failure "Unsupported audio format"
    else if (match req.image with | some ib => !ib.extOk | none => false) then
      .failure "Unsupported image format"
    else
      match req.audio.bind (fun ab => ab.prediction), faceBranch req.image with
      | none, none => .failure "Could not analyze any modality"
      | some vp, none => .voiceOnly vp
      | none, some fr => .faceOnly fr
      | some vp, some fr =>
          match req.fusionAvailable, req.fusionBehavior with
          | true, .predictSucceeded e c all => .fusionVerdict e c all
          | _, _ =>
              .ruleMerge vp fr (mergeEmotionsDefault vp.emotion vp.confidence
                vp.all_emotions fr.emotion fr.confidence (some fr.all_emotions))

/-- A request in which the fusion predictor is available, raw audio and an
image are both present, the predictor would succeed — but the voice
prediction failed. -/
def fusionSkippedRequest : MMRequest :=
  { audio := some { extOk := true, prediction := none }
    image := some { extOk := true, outcome := .recognized "happy" 0.9 [("happy", 0.9)] }
    fusionAvailable := true
    fusionBehavior := .predictSucceeded "surprise" 0.8 [("surprise", 0.8)] }

/-- The result of merging voice ("happy", point mass) with a face point mass
on "sad" under the default weights; used to witness C10. -/
def pointMergeExample : MergedResult :=
  { final_emotion := "happy"
    final_confidence := 0.6
    agreement := "conflict"
    agreement_score := 0.0
    explanation := "Voice detected " ++ "happy" ++ " but face detected " ++ "sad" ++
      " - conflicting emotions"
    voice_prediction := ⟨"happy", 1.0, [("happy", 1.0)]⟩
    face_prediction := ⟨"sad", 1.0, [("sad", 1.0)]⟩
    merged_probabilities := [("happy", 0.6), ("sad", 0.4)]
    emotions_match := false
    compatibility := 0.0 }

/-- C1: for all canonical labels `a`, `b`, `get_compatibility` is symmetric,
and every canonical label is self-compatible with score `1.0`. -/
theorem compatibility_symm_refl :
    ∀ a ∈ canonicalEmotions, ∀ b ∈ canonicalEmotions,
      get_compatibility a b = get_compatibility b a ∧ get_compatibility a a = 1.0 := by
  intro a ha b hb
  fin_cases ha <;> fin_cases hb <;> exact ⟨rfl, rfl⟩

/-- Witness for C1 at the concrete pair ("angry", "happy"). -/
theorem compatibility_symm_refl_witness :
    "angry" ∈ canonicalEmotions ∧ "happy" ∈ canonicalEmotions ∧
      (get_compatibility "angry" "happy" = get_compatibility "happy" "angry" ∧
        get_compatibility "angry" "angry" = 1.0) :=
  ⟨by decide, by decide,
    compatibility_symm_refl "angry" (by decide) "happy" (by decide)⟩

/-- Bounds of the raw matrix entries. -/
theorem compat_bounds (x y : Emotion) : 0 ≤ compat x y ∧ compat x y ≤ 1 := by
  cases x <;> cases y <;> constructor <;> norm_num [compat]

/-- C9: `get_compatibility` first normalizes both inputs (lowercase + strip),
always returns a value in `[0, 1]`, and returns exactly `0.0` whenever either
normalized label falls outside the canonical seven. -/
theorem get_compatibility_contract :
    ∀ a b : String,
      get_compatibility a b = compatLookup (pyStrip (pyLower a)) (pyStrip (pyLower b)) ∧
      0 ≤ get_compatibility a b ∧ get_compatibility a b ≤ 1 ∧
      ((parseEmotion (normalizeEmotion a) = none ∨ parseEmotion (normalizeEmotion b) = none) →
        get_compatibility a b = 0) := by
  intro a b
  refine ⟨rfl, ?_, ?_, ?_⟩ <;>
    · unfold get_compatibility compatLookup
      rcases h1 : parseEmotion (normalizeEmotion a) with _ | x <;>
        rcases h2 : parseEmotion (normalizeEmotion b) with _ | y <;>
        simp_all <;>
        first
          | exact (compat_bounds x y).1
          | exact (compat_bounds x y).2
          | norm_num

/-- Witness for C9 at an unknown label: compatibility of "BOGUS" with
"happy" is `0`. -/
theorem get_compatibility_contract_witness :
    parseEmotion (normalizeEmotion "BOGUS") = none ∧
      get_compatibility "BOGUS" "happy" = 0 :=
  ⟨by decide, (get_compatibility_contract "BOGUS" "happy").2.2.2 (Or.inl (by decide))⟩

theorem fusionVoiceWeight_eq : fusionVoiceWeight = 0.6 := by
  norm_num [fusionVoiceWeight, initWeights, DEFAULT_VOICE_WEIGHT, DEFAULT_FACE_WEIGHT]

theorem fusionFaceWeight_eq : fusionFaceWeight = 0.4 := by
  norm_num [fusionFaceWeight, initWeights, DEFAULT_VOICE_WEIGHT, DEFAULT_FACE_WEIGHT]

/-- C5: the recommendation emotion is forced to "neutral" when the agreement
tier is "conflict" and the final confidence is below `0.4`; in every other
case the merged final emotion is returned unchanged. -/
theorem recommendation_neutral_rule :
    ∀ m : MergedResult,
      (m.agreement = "conflict" → m.final_confidence < 0.4 →
        get_recommendation_emotion m = "neutral") ∧
      (¬(m.agreement = "conflict" ∧ m.final_confidence < 0.4) →
        get_recommendation_emotion m = m.final_emotion) := by
  intro m
  constructor
  · intro h1 h2
    unfold get_recommendation_emotion
    rw [if_pos ⟨h1, h2⟩]
  · intro h
    unfold get_recommendation_emotion
    rw [if_neg h]

/-- Witness for C5: the conflicting low-confidence example is downgraded to
"neutral". -/
theorem recommendation_neutral_rule_witness :
    get_recommendation_emotion conflictExample = "neutral" :=
  (recommendation_neutral_rule conflictExample).1 rfl (by norm_num [conflictExample])

theorem normalize_sad : normalizeEmotion "sad" = "sad" := by decide

theorem normalize_happy : normalizeEmotion "happy" = "happy" := by decide

/-- Counterexample to C4 as stated: voice and face carry the identical label
"sad" and the identical distribution `{happy: 0.9, sad: 0.1}`; the code still
reports agreement tier "strong" with score 1.0, but the merged
`final_emotion` is "happy" (the argmax of the merged distribution), not the
shared label "sad". -/
theorem merge_identical_counterexample :
    (mergeEmotionsDefault "sad" 0.1 [("happy", 0.9), ("sad", 0.1)] "sad" 0.1
        (some [("happy", 0.9), ("sad", 0.1)])).map MergedResult.final_emotion =
      some "happy" ∧
    (mergeEmotionsDefault "sad" 0.1 [("happy", 0.9), ("sad", 0.1)] "sad" 0.1
        (some [("happy", 0.9), ("sad", 0.1)])).map MergedResult.agreement =
      some "strong" ∧
    (mergeEmotionsDefault "sad" 0.1 [("happy", 0.9), ("sad", 0.1)] "sad" 0.1
        (some [("happy", 0.9), ("sad", 0.1)])).map MergedResult.agreement_score =
      some 1.0 ∧
    "happy" ≠ "sad" := by
  refine ⟨?_, ?_, ?_, by decide⟩ <;>
    norm_num +decide [mergeEmotionsDefault, mergeEmotions, mergedDistribution,
      buildMergedResult, upsertAssign, upsertAdd, firstMaxBy, sortDesc, insertDesc,
      fusionVoiceWeight_eq, fusionFaceWeight_eq, normalize_sad, normalize_happy]

theorem any_key_iff {l : List (String × ℚ)} {k : String} :
    l.any (fun p => p.1 = k) = true ↔ k ∈ l.map Prod.fst := by
  simp only [List.any_eq_true, decide_eq_true_eq, List.mem_map]

theorem upsertAssign_of_not_mem {l : List (String × ℚ)} {k : String} (v : ℚ)
    (h : k ∉ l.map Prod.fst) : upsertAssign l k v = l ++ [(k, v)] := by
  unfold upsertAssign
  rw [if_neg fun hc => h (any_key_iff.mp hc)]

theorem upsertAdd_of_not_mem {l : List (String × ℚ)} {k : String} (v : ℚ)
    (h : k ∉ l.map Prod.fst) : upsertAdd l k v = l ++ [(k, v)] := by
  unfold upsertAdd
  rw [if_neg fun hc => h (any_key_iff.mp hc)]

theorem upsertAdd_hit (l1 l2 : List (String × ℚ)) (k : String) (v w : ℚ)
    (h1 : k ∉ l1.map Prod.fst) (h2 : k ∉ l2.map Prod.fst) :
    upsertAdd (l1 ++ (k, v) :: l2) k w = l1 ++ (k, v + w) :: l2 := by
  unfold upsertAdd
  rw [if_pos (any_key_iff.mpr (by simp))]
  rw [List.map_append, List.map_cons, if_pos rfl]
  congr 1
  · calc l1.map (fun p => if p.1 = k then (p.1, p.2 + w) else p)
        = l1.map (fun p => p) :=
          List.map_congr_left fun p hp =>
            if_neg fun he => h1 (List.mem_map.mpr ⟨p, hp, he⟩)
      _ = l1 := l1.map_id'
  · congr 1
    calc l2.map (fun p => if p.1 = k then (p.1, p.2 + w) else p)
        = l2.map (fun p => p) :=
          List.map_congr_left fun p hp =>
            if_neg fun he => h2 (List.mem_map.mpr ⟨p, hp, he⟩)
      _ = l2 := l2.map_id'

theorem foldl_assign_fresh (w : ℚ) (D : List (String × ℚ)) :
    ∀ acc, (∀ p ∈ D, normalizeEmotion p.1 = p.1) → (D.map Prod.fst).Nodup →
      (∀ k ∈ D.map Prod.fst, k ∉ acc.map Prod.fst) →
      D.foldl (fun a p => upsertAssign a (normalizeEmotion p.1) (p.2 * w)) acc =
        acc ++ D.map (fun p => (p.1, p.2 * w)) := by
  induction D with
  | nil => intro acc _ _ _; simp
  | cons x xs ih =>
      intro acc hnorm hnodup hfresh
      rw [List.map_cons, List.nodup_cons] at hnodup
      rw [List.foldl_cons, hnorm x (by simp),
        upsertAssign_of_not_mem _ (hfresh x.1 (by simp)),
        ih (acc ++ [(x.1, x.2 * w)]) (fun p hp => hnorm p (by simp [hp])) hnodup.2
          (by
            intro k hk
            simp only [List.map_append, List.map_cons, List.map_nil, List.mem_append,
              List.mem_singleton, not_or]
            exact ⟨hfresh k (by simp [hk]), fun he => hnodup.1 (he ▸ hk)⟩)]
      simp

theorem foldl_add_hit (w : ℚ) (g : ℚ → ℚ) (D : List (String × ℚ)) :
    ∀ P : List (String × ℚ),
      (∀ p ∈ D, normalizeEmotion p.1 = p.1) →
      (P.map Prod.fst ++ D.map Prod.fst).Nodup →
      D.foldl (fun a p => upsertAdd a (normalizeEmotion p.1) (p.2 * w))
          (P ++ D.map fun p => (p.1, g p.2)) =
        P ++ D.map fun p => (p.1, g p.2 + p.2 * w) := by
  induction D with
  | nil => intro P _ _; simp
  | cons x xs ih =>
      intro P hnorm hnodup
      have hx1P : x.1 ∉ P.map Prod.fst := by
        rw [List.nodup_append] at hnodup
        exact fun hmem => hnodup.2.2 hmem (by simp)
      have hx1xs : x.1 ∉ xs.map Prod.fst := by
        rw [List.nodup_append] at hnodup
        have := hnodup.2.1
        rw [List.map_cons, List.nodup_cons] at this
        exact this.1
      have hkeys : ∀ (h : ℚ → ℚ), (xs.map fun p => (p.1, h p.2)).map Prod.fst = xs.map Prod.fst := by
        intro h
        rw [List.map_map]
        rfl
      rw [List.map_cons, List.foldl_cons, hnorm x (by simp),
        upsertAdd_hit P (xs.map fun p => (p.1, g p.2)) x.1 (g x.2) (x.2 * w) hx1P
          (by rw [hkeys]; exact hx1xs),
        show P ++ (x.1, g x.2 + x.2 * w) :: (xs.map fun p => (p.1, g p.2)) =
          (P ++ [(x.1, g x.2 + x.2 * w)]) ++ xs.map (fun p => (p.1, g p.2)) by simp,
        ih (P ++ [(x.1, g x.2 + x.2 * w)]) (fun p hp => hnorm p (by simp [hp]))
          (by
            simp only [List.map_append, List.map_cons, List.map_nil, List.append_assoc,
              List.singleton_append]
            simpa using hnodup)]
      simp

theorem foldl_max_strict (m : String × ℚ) :
    ∀ (xs : List (String × ℚ)) (b : String × ℚ),
      (b = m ∨ (b.2 < m.2 ∧ m ∈ xs)) →
      (∀ p ∈ xs, p ≠ m → p.2 < m.2) →
      xs.foldl (fun best y => if best.2 < y.2 then y else best) b = m := by
  intro xs
  induction xs with
  | nil =>
      intro b hb _
      rcases hb with rfl | ⟨_, h⟩
      · rfl
      · cases h
  | cons y ys ih =>
      intro b hb hlt
      rw [List.foldl_cons]
      by_cases hy : y = m
      · rcases hb with hbm | ⟨hblt, _⟩
        · rw [hbm, hy, ite_self]
          exact ih m (Or.inl rfl) fun p hp h => hlt p (by simp [hp]) h
        · rw [hy, if_pos hblt]
          exact ih m (Or.inl rfl) fun p hp h => hlt p (by simp [hp]) h
      · have hylt : y.2 < m.2 := hlt y (by simp) hy
        rcases hb with hbm | ⟨hblt, hmem⟩
        · rw [hbm, if_neg (not_lt.mpr (le_of_lt hylt))]
          exact ih m (Or.inl rfl) fun p hp h => hlt p (by simp [hp]) h
        · have hmem' : m ∈ ys := by
            rcases List.mem_cons.mp hmem with h | h
            · exact absurd h.symm hy
            · exact h
          by_cases hc : b.2 < y.2
          · rw [if_pos hc]
            exact ih y (Or.inr ⟨hylt, hmem'⟩) fun p hp h => hlt p (by simp [hp]) h
          · rw [if_neg hc]
            exact ih b (Or.inr ⟨hblt, hmem'⟩) fun p hp h => hlt p (by simp [hp]) h

theorem firstMaxBy_strict {l : List (String × ℚ)} {m : String × ℚ}
    (hm : m ∈ l) (hlt : ∀ p ∈ l, p ≠ m → p.2 < m.2) : firstMaxBy l = some m := by
  cases l with
  | nil => cases hm
  | cons x xs =>
      show some (xs.foldl (fun best y => if best.2 < y.2 then y else best) x) = some m
      refine congrArg some ?_
      rcases List.mem_cons.mp hm with rfl | hmem
      · exact foldl_max_strict m xs m (Or.inl rfl) fun p hp h => hlt p (by simp [hp]) h
      · by_cases hx : x = m
        · subst hx
          exact foldl_max_strict x xs x (Or.inl rfl) fun p hp h => hlt p (by simp [hp]) h
        · exact foldl_max_strict m xs x (Or.inr ⟨hlt x (by simp) hx, hmem⟩)
            fun p hp h => hlt p (by simp [hp]) h

theorem eq_of_mem_nodup_keys :
    ∀ {l : List (String × ℚ)}, (l.map Prod.fst).Nodup →
      ∀ {p q : String × ℚ}, p ∈ l → q ∈ l → p.1 = q.1 → p = q := by
  intro l
  induction l with
  | nil =>
      intro _ p q hp
      cases hp
  | cons x xs ih =>
      intro hnd p q hp hq hk
      rw [List.map_cons, List.nodup_cons] at hnd
      rcases List.mem_cons.mp hp with rfl | hp' <;> rcases List.mem_cons.mp hq with rfl | hq'
      · rfl
      · exact absurd (hk ▸ List.mem_map_of_mem Prod.fst hq') hnd.1
      · exact absurd (hk ▸ List.mem_map_of_mem Prod.fst hp') hnd.1
      · exact ih hnd.2 hp' hq' hk

theorem firstMaxBy_eq_some_of_ne_nil {l : List (String × ℚ)} (h : l ≠ []) :
    ∃ p, firstMaxBy l = some p := by
  cases l with
  | nil => exact absurd rfl h
  | cons x xs => exact ⟨_, rfl⟩

/-- C4 (amended): merging a voice prediction and a face prediction that carry
the identical label `L` and the identical non-empty distribution `D` (with
normalized, duplicate-free keys, as the model distributions are) always
yields agreement tier "strong" with agreement score `1.0`; the merged
`final_emotion` equals `L` whenever `L` carries the strictly greatest
probability of `D` (in general it is the argmax of the merged distribution,
not `L`). -/
theorem merge_identical_strong (L : String) (vc fc : ℚ) (D : List (String × ℚ))
    (hnorm : ∀ p ∈ D, normalizeEmotion p.1 = p.1)
    (hnodup : (D.map Prod.fst).Nodup)
    (hne : D ≠ []) :
    ∃ m, mergeEmotionsDefault L vc D L fc (some D) = some m ∧
      m.agreement = "strong" ∧ m.agreement_score = 1.0 ∧
      ∀ pL, (L, pL) ∈ D → (∀ p ∈ D, p.1 ≠ L → p.2 < pL) → m.final_emotion = L := by
  have hDemp : D.isEmpty = false := by
    cases D with
    | nil => exact absurd rfl hne
    | cons x xs => rfl
  have hm0 : D.foldl
      (fun acc p => upsertAssign acc (normalizeEmotion p.1) (p.2 * fusionVoiceWeight)) [] =
      D.map (fun p => (p.1, p.2 * fusionVoiceWeight)) := by
    simpa using foldl_assign_fresh fusionVoiceWeight D [] hnorm hnodup (by simp)
  have hm1 : D.foldl
      (fun acc p => upsertAdd acc (normalizeEmotion p.1) (p.2 * fusionFaceWeight))
      (D.map fun p => (p.1, p.2 * fusionVoiceWeight)) =
      D.map (fun p => (p.1, p.2 * fusionVoiceWeight + p.2 * fusionFaceWeight)) := by
    simpa using foldl_add_hit fusionFaceWeight (fun t => t * fusionVoiceWeight) D []
      hnorm (by simpa using hnodup)
  have hmd : D.map (fun p => (p.1, p.2 * fusionVoiceWeight + p.2 * fusionFaceWeight)) = D := by
    calc D.map (fun p => (p.1, p.2 * fusionVoiceWeight + p.2 * fusionFaceWeight))
        = D.map (fun p => p) := by
          refine List.map_congr_left fun p _ => ?_
          rw [fusionVoiceWeight_eq, fusionFaceWeight_eq,
            show p.2 * (0.6 : ℚ) + p.2 * 0.4 = p.2 by ring]
      _ = D := D.map_id'
  have hmerged : mergedDistribution fusionVoiceWeight fusionFaceWeight D
      (normalizeEmotion L) fc (some D) = D := by
    unfold mergedDistribution
    rw [hm0]
    simp only [hDemp, Bool.false_eq_true, if_false]
    rw [hm1, hmd]
  obtain ⟨fin, hfin⟩ := firstMaxBy_eq_some_of_ne_nil hne
  refine ⟨buildMergedResult (normalizeEmotion L) (normalizeEmotion L) vc fc D (some D)
    D fin, ?_, ?_, ?_, ?_⟩
  · simp only [mergeEmotionsDefault, mergeEmotions]
    rw [hmerged, hfin]
    rfl
  · simp [buildMergedResult]
  · simp [buildMergedResult]
  · intro pL hmem hmax
    have hfm : firstMaxBy D = some (L, pL) := by
      refine firstMaxBy_strict hmem fun p hp hpne => ?_
      by_cases hk : p.1 = L
      · exact absurd (eq_of_mem_nodup_keys hnodup hp hmem (by simpa using hk)) hpne
      · exact hmax p hp hk
    have hfin2 : fin = (L, pL) := by
      rw [hfin] at hfm
      exact Option.some.inj hfm
    simp [buildMergedResult, hfin2]

/-- Witness for C4 (amended) at a concrete identical voice/face prediction. -/
theorem merge_identical_strong_witness :
    (mergeEmotionsDefault "fear" 0.7 identicalDist "fear" 0.7 (some identicalDist)).map
        MergedResult.agreement = some "strong" ∧
      (mergeEmotionsDefault "fear" 0.7 identicalDist "fear" 0.7 (some identicalDist)).map
        MergedResult.final_emotion = some "fear" := by
  obtain ⟨m, hm, hs, hsc, hf⟩ := merge_identical_strong "fear" 0.7 0.7 identicalDist
    (by decide) (by decide) (by simp [identicalDist])
  have hfinal : m.final_emotion = "fear" :=
    hf 0.7 (by simp [identicalDist])
      (by
        intro p hp
        simp only [identicalDist, List.mem_cons, List.not_mem_nil, or_false] at hp
        rcases hp with rfl | rfl | rfl <;> intro h
        · exact absurd rfl h
        · norm_num
        · norm_num)
  rw [hm]
  simp [hs, hfinal]

theorem upsertAdd_ne_nil (l : List (String × ℚ)) (k : String) (v : ℚ) :
    upsertAdd l k v ≠ [] := by
  cases l with
  | nil => simp [upsertAdd]
  | cons x xs =>
      unfold upsertAdd
      split <;> simp

theorem foldl_upsertAdd_ne_nil (w : ℚ) (fl : List (String × ℚ)) :
    ∀ acc, acc ≠ [] ∨ fl ≠ [] →
      fl.foldl (fun a p => upsertAdd a (normalizeEmotion p.1) (p.2 * w)) acc ≠ [] := by
  induction fl with
  | nil =>
      intro acc h
      rcases h with h | h
      · simpa using h
      · exact absurd rfl h
  | cons x xs ih =>
      intro acc _
      rw [List.foldl_cons]
      exact ih _ (Or.inl (upsertAdd_ne_nil _ _ _))

theorem mergedDistribution_ne_nil (wv wf : ℚ) (vall : List (String × ℚ)) (fe : String)
    (fc : ℚ) (fall : Option (List (String × ℚ))) :
    mergedDistribution wv wf vall fe fc fall ≠ [] := by
  unfold mergedDistribution
  cases fall with
  | none => exact upsertAdd_ne_nil _ _ _
  | some fl =>
      cases fl with
      | nil => exact upsertAdd_ne_nil _ _ _
      | cons y ys =>
          show (y :: ys).foldl _ _ ≠ []
          exact foldl_upsertAdd_ne_nil wf (y :: ys) _ (Or.inr (by simp))

/-- C8 (amended): `merge_emotions` never raises.  Even when both input
distributions are empty or absent (the only case the claim allows to raise),
the falsy face distribution routes into the point-mass branch, the merged
dictionary is non-empty, and a result is returned; unrecognized labels are
accepted and merely score compatibility `0`. -/
theorem merge_total :
    ∀ (wv wf : ℚ) (ve : String) (vc : ℚ) (vall : List (String × ℚ)) (fe : String)
      (fc : ℚ) (fall : Option (List (String × ℚ))),
      ∃ m, mergeEmotions wv wf ve vc vall fe fc fall = some m ∧
        (parseEmotion (normalizeEmotion (normalizeEmotion ve)) = none →
          m.compatibility = 0) := by
  intro wv wf ve vc vall fe fc fall
  obtain ⟨p, hp⟩ := firstMaxBy_eq_some_of_ne_nil
    (mergedDistribution_ne_nil wv wf vall (normalizeEmotion fe) fc fall)
  refine ⟨buildMergedResult (normalizeEmotion ve) (normalizeEmotion fe) vc fc vall fall
    (mergedDistribution wv wf vall (normalizeEmotion fe) fc fall) p, ?_, ?_⟩
  · simp only [mergeEmotions]
    rw [hp]
    rfl
  · intro hnone
    simp only [buildMergedResult, get_compatibility, compatLookup, hnone]
    norm_num

/-- Witness for C8 (amended): merging with an empty voice distribution, an
absent face distribution, and two unknown labels still returns a result,
with compatibility `0`. -/
theorem merge_total_witness :
    (mergeEmotions 0.6 0.4 "alien" 1.0 [] "ghost" 1.0 none).isSome = true ∧
      (mergeEmotions 0.6 0.4 "alien" 1.0 [] "ghost" 1.0 none).map
        MergedResult.compatibility = some 0 := by
  obtain ⟨m, hm, hc⟩ := merge_total 0.6 0.4 "alien" 1.0 [] "ghost" 1.0 none
  rw [hm]
  exact ⟨rfl, by simp [hc (by decide)]⟩

/-- Counterexample to C8 as stated: with both input distributions empty
(`voice_all_emotions = {}` and `face_all_emotions = {}`), the claim demands
that `merge_emotions` raise, but the code returns a merged result built from
the face point mass. -/
theorem merge_empty_counterexample :
    (mergeEmotions 0.6 0.4 "happy" 0.9 [] "sad" 0.8 (some [])).map
      MergedResult.final_emotion = some "sad" := by
  norm_num +decide [mergeEmotions, mergedDistribution, buildMergedResult, upsertAdd,
    firstMaxBy, normalize_sad, normalize_happy]

/-- C2: for every buffer of at least `0.25 * sr` samples, `predict_emotion`
returns the low-information fallback (neutral, confidence 0.25, canned
distribution) exactly when `(rms < 0.05 ∨ peak < 0.15) ∨ speech_ratio < 0.05
∨ (zcr < 0.01 ∨ centroid < 80)`; in particular an all-zero buffer of at
least one second always yields this fallback. -/
theorem quality_gate_iff :
    (∀ (audio : List ℚ) (sr : ℕ) (zcr centroid speech_ratio : ℚ),
      (sr : ℚ) * 0.25 ≤ audio.length →
        (predict_emotion audio sr zcr centroid speech_ratio =
            .fallback "neutral" 0.25 (fallbackDistribution 0.25)
              (assess_audio_quality audio zcr centroid speech_ratio) ↔
          ((meanSq audio < 0.05 ^ 2 ∨ peakAbs audio < 0.15) ∨ speech_ratio < 0.05 ∨
            (zcr < 0.01 ∨ centroid < 80.0)))) ∧
    (∀ (audio : List ℚ) (sr : ℕ) (zcr centroid speech_ratio : ℚ),
      sr ≤ audio.length → 0 < sr → (∀ x ∈ audio, x = 0) →
        predict_emotion audio sr zcr centroid speech_ratio =
          .fallback "neutral" 0.25 (fallbackDistribution 0.25)
            (assess_audio_quality audio zcr centroid speech_ratio)) := by
  constructor
  · intro audio sr zcr centroid speech_ratio hlen
    unfold predict_emotion
    rw [if_neg (not_lt.mpr hlen)]
    simp only [assess_audio_quality]
    by_cases hc : (meanSq audio < 0.05 ^ 2 ∨ peakAbs audio < 0.15) ∨ speech_ratio < 0.05 ∨
        (zcr < 0.01 ∨ centroid < 80.0)
    · rw [if_pos hc]
      simp [hc]
    · rw [if_neg hc]
      simp [hc]
  · intro audio sr zcr centroid speech_ratio hlen hsr hz
    have hlen' : (sr : ℚ) * 0.25 ≤ audio.length := by
      have h1 : (sr : ℚ) ≤ (audio.length : ℚ) := by exact_mod_cast hlen
      have h2 : (0 : ℚ) < (sr : ℚ) := by exact_mod_cast hsr
      nlinarith
    have hms : meanSq audio = 0 := by
      unfold meanSq
      rw [List.sum_eq_zero, zero_div]
      intro y hy
      obtain ⟨x, hx, rfl⟩ := List.mem_map.mp hy
      rw [hz x hx]
      ring
    unfold predict_emotion
    rw [if_neg (not_lt.mpr hlen')]
    rw [if_pos (Or.inl (Or.inl (by rw [show (assess_audio_quality audio zcr centroid
      speech_ratio).rmsSq = meanSq audio from rfl, hms]; norm_num)))]

/-- Witness for C2 at an all-zero one-second buffer (4 samples, sr = 4). -/
theorem quality_gate_iff_witness :
    predict_emotion [0, 0, 0, 0] 4 0 0 0 =
      .fallback "neutral" 0.25 (fallbackDistribution 0.25)
        (assess_audio_quality [0, 0, 0, 0] 0 0 0) :=
  quality_gate_iff.2 [0, 0, 0, 0] 4 0 0 0 (by norm_num) (by norm_num)
    (by intro x hx; simpa using hx)

/-- Counterexample to C3 as stated: a 100-sample buffer at 16 kHz takes the
too-short path, and its fallback distribution assigns 0.2 to "neutral" — not
the 0.25 that the claim carries over from the unreliable-audio fallback. -/
theorem short_audio_counterexample :
    predict_emotion (List.replicate 100 0) 16000 0 0 0 =
      .fallback "neutral" 0.2 (fallbackDistribution 0.2) ⟨0, 0, 0, 0, 0⟩ ∧
      fallbackDistribution 0.2 ≠ fallbackDistribution 0.25 := by
  constructor
  · unfold predict_emotion
    rw [if_pos (by norm_num)]
  · intro h
    norm_num [fallbackDistribution] at h

/-- C3 (amended): every buffer shorter than `0.25 * sr` samples bypasses all
spectral / quality analysis (the returned quality report is identically zero,
independent of the buffer contents and the spectral parameters) and yields
the fallback prediction with confidence 0.2, whose distribution assigns 0.2
to neutral and otherwise matches the unreliable-audio fallback. -/
theorem short_audio_fallback :
    ∀ (audio : List ℚ) (sr : ℕ) (zcr centroid speech_ratio : ℚ),
      (audio.length : ℚ) < (sr : ℚ) * 0.25 →
      predict_emotion audio sr zcr centroid speech_ratio =
        .fallback "neutral" 0.2 (fallbackDistribution 0.2) ⟨0, 0, 0, 0, 0⟩ := by
  intro audio sr zcr centroid speech_ratio h
  unfold predict_emotion
  rw [if_pos h]

/-- Witness for C3 (amended): 100 samples at 16 kHz. -/
theorem short_audio_fallback_witness :
    predict_emotion (List.replicate 100 0) 16000 1 1 1 =
      .fallback "neutral" 0.2 (fallbackDistribution 0.2) ⟨0, 0, 0, 0, 0⟩ :=
  short_audio_fallback (List.replicate 100 0) 16000 1 1 1 (by norm_num)

theorem detect_expression_success (o : FaceOutcome) : (detect_expression o).success = true := by
  cases o <;> rfl

/-- C6 (amended): when the learned fusion predictor is available, the voice
branch produced a successful prediction, and an image with an allowed
extension is present, a successful learned-fusion prediction becomes the
verdict directly (mode "fusion"); the rule-based merge is bypassed.  The
branch does not, however, take priority over the single-modality fallbacks:
they are tested first (see the counterexample). -/
theorem fusion_branch_authoritative :
    ∀ (ab : AudioBranch) (ib : ImageBranch) (vp : ModalityPrediction)
      (e : String) (c : ℚ) (all : List (String × ℚ)),
      ab.extOk = true → ab.prediction = some vp → ib.extOk = true →
      analyze_voice_and_face ⟨some ab, some ib, true, .predictSucceeded e c all⟩ =
        .fusionVerdict e c all := by
  intro ab ib vp e c all hext hpred hiext
  simp [analyze_voice_and_face, faceBranch, hext, hiext, hpred, detect_expression_success]

/-- Witness for C6 (amended) at a fully concrete request. -/
theorem fusion_branch_authoritative_witness :
    analyze_voice_and_face
        ⟨some ⟨true, some ⟨"happy", 0.9, [("happy", 0.9)]⟩⟩,
          some ⟨true, .recognized "sad" 0.8 [("sad", 0.8)]⟩, true,
          .predictSucceeded "fear" 0.7 [("fear", 0.7)]⟩ =
      .fusionVerdict "fear" 0.7 [("fear", 0.7)] :=
  fusion_branch_authoritative ⟨true, some ⟨"happy", 0.9, [("happy", 0.9)]⟩⟩
    ⟨true, .recognized "sad" 0.8 [("sad", 0.8)]⟩ ⟨"happy", 0.9, [("happy", 0.9)]⟩
    "fear" 0.7 [("fear", 0.7)] rfl rfl rfl

/-- Counterexample to C6 as stated: on `fusionSkippedRequest` the claim
demands that the learned model be attempted and its output become the
verdict, but the face-only single-modality branch is tested first and wins,
so the learned model is never consulted. -/
theorem fusion_priority_counterexample :
    analyze_voice_and_face fusionSkippedRequest =
        .faceOnly ⟨true, "happy", 0.9, [("happy", 0.9)], none⟩ ∧
      analyze_voice_and_face fusionSkippedRequest ≠
        .fusionVerdict "surprise" 0.8 [("surprise", 0.8)] := by
  have h1 : analyze_voice_and_face fusionSkippedRequest =
      .faceOnly ⟨true, "happy", 0.9, [("happy", 0.9)], none⟩ := rfl
  exact ⟨h1, by rw [h1]; exact fun h => Verdict.noConfusion h⟩

/-- C7: when an image with an allowed extension is provided and the face
predictor fails (unreadable image, placeholder image, or a recognizer
error), the face branch yields the canned neutral prediction
{neutral, 0.3, {neutral: 0.3}} with a warning attached and the request
continues as if the face branch succeeded: as long as the audio extension is
not itself rejected, orchestration never returns a terminal failure. -/
theorem face_failure_recovered :
    ∀ ib : ImageBranch, ib.outcome.isFailure = true → ib.extOk = true →
      (∃ w, faceBranch (some ib) = some (neutralFaceFallback w)) ∧
      (∀ audio : Option AudioBranch, (∀ ab, audio = some ab → ab.extOk = true) →
        ∀ (fa : Bool) (fb : FusionBehavior) (err : String),
          analyze_voice_and_face ⟨audio, some ib, fa, fb⟩ ≠ .failure err) := by
  intro ib hfail hext
  constructor
  · cases ho : ib.outcome with
    | unreadableImage =>
        exact ⟨"Could not read image, using neutral fallback",
          by simp [faceBranch, ho, detect_expression, neutralFaceFallback]⟩
    | placeholderImage =>
        exact ⟨"No camera available, using neutral fallback",
          by simp [faceBranch, ho, detect_expression, neutralFaceFallback]⟩
    | recognizerError =>
        exact ⟨"Face detection failed, using neutral fallback",
          by simp [faceBranch, ho, detect_expression, neutralFaceFallback]⟩
    | recognized e c a => rw [ho] at hfail; exact absurd hfail (by simp [FaceOutcome.isFailure])
  · intro audio haud fa fb err h
    rcases audio with _ | ab
    · simp [analyze_voice_and_face, faceBranch, detect_expression_success, hext] at h
    · have hab := haud ab rfl
      rcases hpred : ab.prediction with _ | vp <;>
        cases fa <;> cases fb <;>
        simp [analyze_voice_and_face, faceBranch, detect_expression_success, hab, hext,
          hpred] at h

/-- Witness for C7: a recognizer error with no audio provided still produces
a verdict, not the terminal failure. -/
theorem face_failure_recovered_witness :
    (⟨true, FaceOutcome.recognizerError⟩ : ImageBranch).outcome.isFailure = true ∧
      analyze_voice_and_face ⟨none, some ⟨true, .recognizerError⟩, false, .predictFailed⟩ ≠
        .failure "Could not analyze any modality" :=
  ⟨rfl, (face_failure_recovered ⟨true, .recognizerError⟩ rfl rfl).2 none
    (fun _ h => Option.noConfusion h) false .predictFailed
    "Could not analyze any modality"⟩

theorem mem_upsertAssign {l : List (String × ℚ)} {k : String} {v : ℚ} {p : String × ℚ}
    (hp : p ∈ upsertAssign l k v) : p ∈ l ∨ p.2 = v := by
  unfold upsertAssign at hp
  split at hp
  · obtain ⟨q, hq, hfq⟩ := List.mem_map.mp hp
    by_cases hk : q.1 = k
    · right
      rw [if_pos hk] at hfq
      rw [← hfq]
    · left
      rw [if_neg hk] at hfq
      rw [← hfq]
      exact hq
  · rcases List.mem_append.mp hp with h | h
    · left; exact h
    · right
      rw [show p = (k, v) by simpa using h]

theorem mem_upsertAdd {l : List (String × ℚ)} {k : String} {v : ℚ} {p : String × ℚ}
    (hp : p ∈ upsertAdd l k v) :
    (p ∈ l ∧ p.1 ≠ k) ∨ (∃ q ∈ l, q.1 = k ∧ p = (q.1, q.2 + v)) ∨ p = (k, v) := by
  unfold upsertAdd at hp
  split at hp
  case isTrue hany =>
    obtain ⟨q, hq, hfq⟩ := List.mem_map.mp hp
    by_cases hk : q.1 = k
    · right; left
      exact ⟨q, hq, hk, by rw [← hfq, if_pos hk]⟩
    · left
      rw [if_neg hk] at hfq
      rw [← hfq]
      exact ⟨hq, hk⟩
  case isFalse hany =>
    rcases List.mem_append.mp hp with h | h
    · left
      refine ⟨h, fun hpk => ?_⟩
      exact hany (any_key_iff.mpr (List.mem_map.mpr ⟨p, h, hpk⟩))
    · right; right
      simpa using h

theorem voice_fold_bounds (wv : ℚ) (hwv : 0 ≤ wv) (vall : List (String × ℚ)) :
    ∀ acc : List (String × ℚ),
      (∀ p ∈ vall, 0 ≤ p.2 ∧ p.2 ≤ 1) →
      (∀ p ∈ acc, 0 ≤ p.2 ∧ p.2 ≤ wv) →
      ∀ p ∈ vall.foldl (fun a q => upsertAssign a (normalizeEmotion q.1) (q.2 * wv)) acc,
        0 ≤ p.2 ∧ p.2 ≤ wv := by
  induction vall with
  | nil => intro acc _ hacc p hp; exact hacc p hp
  | cons x xs ih =>
      intro acc hv hacc p hp
      rw [List.foldl_cons] at hp
      refine ih _ (fun q hq => hv q (by simp [hq])) ?_ p hp
      intro q hq
      rcases mem_upsertAssign hq with h | h
      · exact hacc q h
      · have hx := hv x (by simp)
        constructor
        · rw [h]; exact mul_nonneg hx.1 hwv
        · rw [h]
          calc x.2 * wv ≤ 1 * wv := mul_le_mul_of_nonneg_right hx.2 hwv
            _ = wv := one_mul wv

theorem face_fold_bounds (wv wf : ℚ) (hwv : 0 ≤ wv) (hwf : 0 ≤ wf) (hsum : wv + wf = 1)
    (fl : List (String × ℚ)) :
    ∀ acc : List (String × ℚ),
      (∀ p ∈ fl, 0 ≤ p.2 ∧ p.2 ≤ 1) →
      (fl.map (fun q => normalizeEmotion q.1)).Nodup →
      (∀ p ∈ acc, 0 ≤ p.2 ∧ p.2 ≤ 1 ∧
        (p.1 ∈ fl.map (fun q => normalizeEmotion q.1) → p.2 ≤ wv)) →
      ∀ p ∈ fl.foldl (fun a q => upsertAdd a (normalizeEmotion q.1) (q.2 * wf)) acc,
        0 ≤ p.2 ∧ p.2 ≤ 1 := by
  induction fl with
  | nil => intro acc _ _ hacc p hp; exact ⟨(hacc p hp).1, (hacc p hp).2.1⟩
  | cons x xs ih =>
      intro acc hf hnd hacc p hp
      rw [List.foldl_cons] at hp
      rw [List.map_cons, List.nodup_cons] at hnd
      have hx := hf x (by simp)
      have hxw0 : 0 ≤ x.2 * wf := mul_nonneg hx.1 hwf
      have hxw1 : x.2 * wf ≤ wf := by
        calc x.2 * wf ≤ 1 * wf := mul_le_mul_of_nonneg_right hx.2 hwf
          _ = wf := one_mul wf
      refine ih _ (fun q hq => hf q (by simp [hq])) hnd.2 ?_ p hp
      intro q hq
      rcases mem_upsertAdd hq with ⟨hqin, hqk⟩ | ⟨r, hrin, hrk, hreq⟩ | heq
      · have h3 := hacc q hqin
        exact ⟨h3.1, h3.2.1, fun hmem => h3.2.2 (by simp [hmem])⟩
      · have h3 := hacc r hrin
        have hrwv : r.2 ≤ wv := h3.2.2 (by rw [hrk]; simp)
        refine ⟨?_, ?_, ?_⟩
        · rw [hreq]; exact add_nonneg h3.1 hxw0
        · rw [hreq]
          show r.2 + x.2 * wf ≤ 1
          linarith
        · rw [hreq]
          intro hmem
          rw [show ((r.1, r.2 + x.2 * wf) : String × ℚ).1 = r.1 from rfl, hrk] at hmem
          exact absurd hmem hnd.1
      · refine ⟨?_, ?_, ?_⟩
        · rw [heq]; exact hxw0
        · rw [heq]
          show x.2 * wf ≤ 1
          linarith
        · rw [heq]
          intro hmem
          exact absurd hmem hnd.1

theorem pointmass_bounds (wv wf fc : ℚ) (hwv : 0 ≤ wv) (hwf : 0 ≤ wf) (hsum : wv + wf = 1)
    (hfc0 : 0 ≤ fc) (hfc1 : fc ≤ 1) (merged0 : List (String × ℚ)) (k : String)
    (hm : ∀ p ∈ merged0, 0 ≤ p.2 ∧ p.2 ≤ wv) :
    ∀ p ∈ upsertAdd merged0 k (fc * wf), 0 ≤ p.2 ∧ p.2 ≤ 1 := by
  intro p hp
  have hv0 : 0 ≤ fc * wf := mul_nonneg hfc0 hwf
  have hv1 : fc * wf ≤ wf := by
    calc fc * wf ≤ 1 * wf := mul_le_mul_of_nonneg_right hfc1 hwf
      _ = wf := one_mul wf
  rcases mem_upsertAdd hp with ⟨hin, _⟩ | ⟨q, hq, _, heq⟩ | heq
  · have h2 := hm p hin
    exact ⟨h2.1, by linarith [h2.2]⟩
  · have h2 := hm q hq
    constructor
    · rw [heq]; exact add_nonneg h2.1 hv0
    · rw [heq]
      show q.2 + fc * wf ≤ 1
      linarith [h2.2]
  · constructor
    · rw [heq]; exact hv0
    · rw [heq]
      show fc * wf ≤ 1
      linarith

theorem foldl_max_mem (xs : List (String × ℚ)) :
    ∀ b : String × ℚ, xs.foldl (fun best y => if best.2 < y.2 then y else best) b = b ∨
      xs.foldl (fun best y => if best.2 < y.2 then y else best) b ∈ xs := by
  induction xs with
  | nil => intro b; left; rfl
  | cons y ys ih =>
      intro b
      rw [List.foldl_cons]
      by_cases hc : b.2 < y.2
      · rw [if_pos hc]
        rcases ih y with h | h
        · right; simp [h]
        · right; simp [h]
      · rw [if_neg hc]
        rcases ih b with h | h
        · left; exact h
        · right; simp [h]

theorem firstMaxBy_mem {l : List (String × ℚ)} {p : String × ℚ}
    (h : firstMaxBy l = some p) : p ∈ l := by
  cases l with
  | nil => cases h
  | cons x xs =>
      have h' : xs.foldl (fun best y => if best.2 < y.2 then y else best) x = p :=
        Option.some.inj h
      rcases foldl_max_mem xs x with h2 | h2
      · rw [h'] at h2
        simp [← h2]
      · rw [h'] at h2
        simp [h2]

theorem mem_insertDesc {x p : String × ℚ} : ∀ {l : List (String × ℚ)},
    p ∈ insertDesc x l ↔ p = x ∨ p ∈ l := by
  intro l
  induction l with
  | nil => simp [insertDesc]
  | cons y ys ih =>
      unfold insertDesc
      split
      · simp [List.mem_cons]
        try tauto
      · simp [List.mem_cons, ih]
        try tauto

theorem mem_sortDesc {p : String × ℚ} {l : List (String × ℚ)} :
    p ∈ sortDesc l ↔ p ∈ l := by
  suffices h : ∀ (l acc : List (String × ℚ)),
      (p ∈ l.foldl (fun a x => insertDesc x a) acc ↔ p ∈ acc ∨ p ∈ l) by
    unfold sortDesc
    rw [h l []]
    simp
  intro l
  induction l with
  | nil => intro acc; simp
  | cons x xs ih =>
      intro acc
      rw [List.foldl_cons, ih, mem_insertDesc]
      simp [List.mem_cons]
      tauto

theorem mergedDistribution_none (wv wf : ℚ) (vall : List (String × ℚ)) (fe : String)
    (fc : ℚ) :
    mergedDistribution wv wf vall fe fc none =
      upsertAdd (vall.foldl (fun acc p => upsertAssign acc (normalizeEmotion p.1)
        (p.2 * wv)) []) fe (fc * wf) := rfl

theorem mergedDistribution_some (wv wf : ℚ) (vall : List (String × ℚ)) (fe : String)
    (fc : ℚ) (fl : List (String × ℚ)) :
    mergedDistribution wv wf vall fe fc (some fl) =
      (if fl.isEmpty then
        upsertAdd (vall.foldl (fun acc p => upsertAssign acc (normalizeEmotion p.1)
          (p.2 * wv)) []) fe (fc * wf)
      else
        fl.foldl (fun acc p => upsertAdd acc (normalizeEmotion p.1) (p.2 * wf))
          (vall.foldl (fun acc p => upsertAssign acc (normalizeEmotion p.1)
            (p.2 * wv)) [])) := rfl

/-- C10 (amended): if the weights are non-negative and normalized
(`wv + wf = 1`), the face confidence and all distribution values lie in
`[0, 1]`, and no two keys of the face distribution normalize to the same
label, then every value of the returned `merged_probabilities` lies in
`[0, 1]`, and so does `final_confidence`.  (Without the duplicate-free key
condition the bound fails: see the counterexample.) -/
theorem merged_probabilities_bounded :
    ∀ (wv wf : ℚ) (ve : String) (vc : ℚ) (vall : List (String × ℚ)) (fe : String)
      (fc : ℚ) (fall : Option (List (String × ℚ))) (m : MergedResult),
      0 ≤ wv → 0 ≤ wf → wv + wf = 1 → 0 ≤ fc → fc ≤ 1 →
      (∀ p ∈ vall, 0 ≤ p.2 ∧ p.2 ≤ 1) →
      (∀ fl, fall = some fl → (∀ p ∈ fl, 0 ≤ p.2 ∧ p.2 ≤ 1) ∧
        (fl.map (fun q => normalizeEmotion q.1)).Nodup) →
      mergeEmotions wv wf ve vc vall fe fc fall = some m →
      (∀ p ∈ m.merged_probabilities, 0 ≤ p.2 ∧ p.2 ≤ 1) ∧
        0 ≤ m.final_confidence ∧ m.final_confidence ≤ 1 := by
  intro wv wf ve vc vall fe fc fall m hwv hwf hsum hfc0 hfc1 hvall hfall hm
  simp only [mergeEmotions] at hm
  obtain ⟨fin, hfin, hbuild⟩ := Option.map_eq_some'.mp hm
  have hm0 : ∀ p ∈ vall.foldl
      (fun a q => upsertAssign a (normalizeEmotion q.1) (q.2 * wv)) [],
      0 ≤ p.2 ∧ p.2 ≤ wv := voice_fold_bounds wv hwv vall [] hvall (by simp)
  have hbound : ∀ p ∈ mergedDistribution wv wf vall (normalizeEmotion fe) fc fall,
      0 ≤ p.2 ∧ p.2 ≤ 1 := by
    cases fall with
    | none =>
        rw [mergedDistribution_none]
        exact pointmass_bounds wv wf fc hwv hwf hsum hfc0 hfc1 _ _ hm0
    | some fl =>
        obtain ⟨hflb, hflnd⟩ := hfall fl rfl
        rw [mergedDistribution_some]
        by_cases hemp : fl.isEmpty
        · rw [if_pos hemp]
          exact pointmass_bounds wv wf fc hwv hwf hsum hfc0 hfc1 _ _ hm0
        · rw [if_neg hemp]
          exact face_fold_bounds wv wf hwv hwf hsum fl _ hflb hflnd
            (fun p hp => ⟨(hm0 p hp).1, le_trans (hm0 p hp).2 (by linarith),
              fun _ => (hm0 p hp).2⟩)
  constructor
  · intro p hp
    rw [← hbuild] at hp
    simp only [buildMergedResult] at hp
    exact hbound p (mem_sortDesc.mp hp)
  · have hfinmem := firstMaxBy_mem hfin
    have h2 := hbound fin hfinmem
    rw [← hbuild]
    simp only [buildMergedResult]
    exact h2

theorem normalize_upper_happy : normalizeEmotion "Happy" = "happy" := by decide

theorem normalize_happy_trail : normalizeEmotion "happy " = "happy" := by decide

/-- Counterexample to C10 as stated: all confidences and probability values
lie in `[0, 1]` and the singleton weights are the normalized defaults
(0.6 + 0.4 = 1), yet the face keys "Happy" and "happy " both normalize to
"happy", so the face weight is accumulated twice onto the voice slot and
`final_confidence` is `1.4 > 1`. -/
theorem merged_probabilities_counterexample :
    (mergeEmotionsDefault "happy" 1.0 [("happy", 1.0)] "Happy" 1.0
        (some [("Happy", 1.0), ("happy ", 1.0)])).map MergedResult.final_confidence =
      some 1.4 ∧ ¬((1.4 : ℚ) ≤ 1) := by
  constructor
  · norm_num +decide [mergeEmotionsDefault, mergeEmotions, mergedDistribution,
      buildMergedResult, upsertAssign, upsertAdd, firstMaxBy, fusionVoiceWeight_eq,
      fusionFaceWeight_eq, normalize_happy, normalize_upper_happy, normalize_happy_trail]
  · norm_num

/-- Witness for C10 (amended): the concrete merge behind `pointMergeExample`
satisfies every hypothesis, so its final confidence lies in `[0, 1]`. -/
theorem merged_probabilities_bounded_witness :
    0 ≤ pointMergeExample.final_confidence ∧ pointMergeExample.final_confidence ≤ 1 :=
  (merged_probabilities_bounded 0.6 0.4 "happy" 1.0 [("happy", 1.0)] "sad" 1.0 none
    pointMergeExample (by norm_num) (by norm_num) (by norm_num) (by norm_num) (by norm_num)
    (by
      intro p hp
      simp only [List.mem_singleton] at hp
      subst hp
      norm_num)
    (fun fl h => Option.noConfusion h)
    (by norm_num +decide [mergeEmotions, mergedDistribution, buildMergedResult,
      upsertAssign, upsertAdd, firstMaxBy, sortDesc, insertDesc, pointMergeExample,
      normalize_happy, normalize_sad, get_compatibility, compatLookup, parseEmotion,
      compat])).2
